import Mathlib

/-!
Verification of the multi-partition dataset composition logic of
`mmdet3d/datasets/s3dis_dataset.py` (`_S3DISSegDataset` / `S3DISSegDataset`).

Shallow embedding conventions:
* Sampling-index values are modelled as `Nat` (the spec calls them
  non-negative integers; the `np.int32` width is immaterial at the
  magnitudes the composition manipulates, and all offsets are non-negative).
* Label weights (`np.float32` arrays) are modelled as exact rationals `ℚ`;
  the merge only sums and divides by the partition count.
* Python exceptions are modelled with `Except Err`.
* The base class `Custom3DSegDataset` is not part of the analysed sources;
  its construction-time behaviour is modelled from the specification where
  indicated (`Modelled from the spec:`).
-/

namespace S3DIS

/-- Python exceptions that the composition logic can surface. -/
inductive Err where
  /-- `NotImplementedError('please provide re-sampled scene indexes for training')`. -/
  | notImplemented
  /-- Python `IndexError` (sequence index out of range). -/
  | indexError
  /-- NumPy `ValueError` (`.max()` over a zero-size array). -/
  | valueError
  /-- Out-of-range sampling-index value rejected at partition construction. -/
  | indexRange
deriving DecidableEq, Repr

/-- One scene's metadata: paths to its point data and its semantic labels. -/
structure SceneRecord where
  pts_path : String
  pts_semantic_mask_path : String
deriving DecidableEq, Repr

/-- A sampling-index source after normalization: either a string reference to a
precomputed artifact or a concrete index array (`np.ndarray` of scene offsets). -/
inductive IdxSrc where
  | str (s : String)
  | arr (a : List Nat)
deriving DecidableEq, Repr

/-- A label-weight source after normalization: a string reference or a concrete
weight vector. -/
inductive WSrc where
  | str (s : String)
  | arr (w : List ℚ)
deriving DecidableEq, Repr

/-- The runtime shapes the `ann_files` argument can take (`str` or a list). -/
inductive AnnInput where
  | single (s : String)
  | list (l : List String)
deriving DecidableEq, Repr

/-- The runtime shapes the `scene_idxs` argument of `S3DISSegDataset.__init__`
can take: `None`, one string, one index array, or a per-partition list whose
elements are strings or arrays. -/
inductive IdxInput where
  | noneI
  | strI (s : String)
  | arrI (a : List Nat)
  | listI (l : List IdxSrc)
deriving DecidableEq, Repr

/-- The runtime shapes the `label_weights` argument can take. -/
inductive WInput where
  | noneW
  | strW (s : String)
  | arrW (w : List ℚ)
  | listW (l : List WSrc)
deriving DecidableEq, Repr

/-- `np.unique(x).max()`: `np.unique` never changes the maximum, and `.max()`
raises on an empty array, hence the `Option`. -/
def npMax : List Nat → Option Nat
  | [] => none
  | x :: xs => some (xs.foldl max x)

/-- `S3DISSegDataset.concat_data_infos`: plain ordered flattening of the
per-partition scene-record lists (a Python list comprehension). -/
def concat_data_infos {α : Type} (data_infos : List (List α)) : List α :=
  data_infos.flatten

/-- Loop of `S3DISSegDataset.concat_scene_idxs`: state is the merged index so
far and the running `offset`; each partition's index is shifted by `offset`
and appended, then `offset` becomes `np.unique(merged).max() + 1`. -/
def concat_scene_idxs_loop : List (List Nat) → List Nat → Nat → Except Err (List Nat)
  | [], merged, _ => .ok merged
  | one_scene_idxs :: rest, merged, offset =>
    let merged' := merged ++ one_scene_idxs.map (· + offset)
    match npMax merged' with
    | none => .error .valueError
    | some m => concat_scene_idxs_loop rest merged' (m + 1)

/-- `S3DISSegDataset.concat_scene_idxs`, started from the empty merged index
and `offset = 0`. -/
def concat_scene_idxs (scene_idxs : List (List Nat)) : Except Err (List Nat) :=
  concat_scene_idxs_loop scene_idxs [] 0

/-- `S3DISSegDataset.concat_label_weight`:
`np.array(label_weights).mean(0)` — for each class position, the arithmetic
mean of the per-partition entries. -/
def concat_label_weight (label_weights : List (List ℚ)) : List ℚ :=
  match label_weights with
  | [] => []
  | w :: _ =>
    (List.range w.length).map fun j =>
      (label_weights.map fun v => v.getD j 0).sum / (label_weights.length : ℚ)

/-- One step of the merge fold as the specification words it: the state is
`(merged index, next offset)`; add the offset to the partition's values,
append them, and set the offset to one plus the maximum value present in the
whole merged index (failing when that maximum does not exist). -/
def mergeStep (st : Except Err (List Nat × Nat)) (one_scene_idxs : List Nat) :
    Except Err (List Nat × Nat) :=
  st.bind fun p =>
    let merged := p.1 ++ one_scene_idxs.map (· + p.2)
    match npMax merged with
    | none => Except.error Err.valueError
    | some m => Except.ok (merged, m + 1)

/-- The merge exactly as the specification words it: a left-to-right fold of
`mergeStep` over the partitions' sampling indices, starting from `([], 0)`,
keeping the merged index. -/
def mergeIdxSpec (scene_idxs : List (List Nat)) : Except Err (List Nat) :=
  (scene_idxs.foldl mergeStep (Except.ok (([], 0) : List Nat × Nat))).map Prod.fst

/-- Start of partition `k`'s contiguous range in the merged scene-record
list: the total length of the partitions before it. -/
def start_of {α : Type} (infos : List (List α)) (k : Nat) : Nat :=
  ((infos.take k).map List.length).sum

/-- `S3DISSegDataset._duplicate_to_list`: `[x for _ in range(num)]`. -/
def duplicate_to_list {α : Type} (x : α) (num : Nat) : List α :=
  List.replicate num x

/-- `S3DISSegDataset._check_ann_files`: wrap a lone string into a one-element
list; an explicit list is used as-is. -/
def check_ann_files (ann_file : AnnInput) : List String :=
  match ann_file with
  | .single s => duplicate_to_list s 1
  | .list l => l

/-- `S3DISSegDataset._check_scene_idxs`: `None` and single references are
replicated `num` times; explicit per-partition lists are used as-is.  The
dispatch on `scene_idx[0]` raises `IndexError` when the collection is empty. -/
def check_scene_idxs (scene_idx : IdxInput) (num : Nat) :
    Except Err (List (Option IdxSrc)) :=
  match scene_idx with
  | .noneI => .ok (duplicate_to_list none num)
  | .strI s => .ok (duplicate_to_list (some (.str s)) num)
  | .arrI a =>
    match a with
    | [] => .error .indexError
    | _ :: _ => .ok (duplicate_to_list (some (.arr a)) num)
  | .listI l =>
    match l with
    | [] => .error .indexError
    | _ :: _ => .ok (l.map some)

/-- `S3DISSegDataset._check_label_weights`: same dispatch as
`check_scene_idxs`, for the weight input. -/
def check_label_weights (label_weight : WInput) (num : Nat) :
    Except Err (List (Option WSrc)) :=
  match label_weight with
  | .noneW => .ok (duplicate_to_list none num)
  | .strW s => .ok (duplicate_to_list (some (.str s)) num)
  | .arrW w =>
    match w with
    | [] => .error .indexError
    | _ :: _ => .ok (duplicate_to_list (some (.arr w)) num)
  | .listW l =>
    match l with
    | [] => .error .indexError
    | _ :: _ => .ok (l.map some)

/-- External collaborators of a partition dataset: the scene-metadata store
keyed by annotation file, and the resolvers for precomputed index and weight
artifacts (all deterministic lookups at this interface). -/
structure Env where
  load_infos : String → List SceneRecord
  resolve_idx : String → List Nat
  resolve_weight : String → List ℚ
  default_weight : String → List ℚ

/-- The state a constructed partition dataset exposes to the composite. -/
structure Partition where
  data_infos : List SceneRecord
  scene_idxs : List Nat
  label_weight : List ℚ
deriving DecidableEq, Repr

/-- Construction of one `_S3DISSegDataset`.  The training-mode guard is the
source override `get_scene_idxs_and_label_weight` (raise when not in test
mode and no scene index is supplied).  Modelled from the spec: the base class
`Custom3DSegDataset` (not among the analysed sources) resolves the supplied
index/weight sources during `__init__`, defaults evaluation mode to one visit
per scene in storage order, defaults the weight to one computed from data,
and rejects out-of-range sampling-index values at construction. -/
def mkPartition (env : Env) (test_mode : Bool) (ann_file : String)
    (scene_idxs : Option IdxSrc) (label_weight : Option WSrc) :
    Except Err Partition :=
  if test_mode = false ∧ scene_idxs = none then .error .notImplemented
  else
    let infos := env.load_infos ann_file
    let idx : List Nat :=
      match scene_idxs with
      | none => List.range infos.length
      | some (.str s) => env.resolve_idx s
      | some (.arr a) => a
    let w : List ℚ :=
      match label_weight with
      | none => env.default_weight ann_file
      | some (.str s) => env.resolve_weight s
      | some (.arr v) => v
    if ∀ v ∈ idx, v < infos.length then
      .ok { data_infos := infos, scene_idxs := idx, label_weight := w }
    else
      .error .indexRange

/-- Python sequence indexing: `l[i]`, raising `IndexError` out of range. -/
def pyGet {α : Type} (l : List α) (i : Nat) : Except Err α :=
  match l[i]? with
  | none => .error .indexError
  | some x => .ok x

/-- The `datasets = [_S3DISSegDataset(...) for i in range(len(ann_files))]`
comprehension: partition `i` is built from `ann_files[i]`, `scene_idxs[i]`
and `label_weights[i]`, the two indexings raising `IndexError` when the
normalized collections are shorter than `ann_files`. -/
def build_loop (env : Env) (test_mode : Bool)
    (scene_idxs : List (Option IdxSrc)) (label_weights : List (Option WSrc)) :
    Nat → List String → Except Err (List Partition)
  | _, [] => .ok []
  | i, af :: rest => do
    let s ← pyGet scene_idxs i
    let w ← pyGet label_weights i
    let p ← mkPartition env test_mode af s w
    let ps ← build_loop env test_mode scene_idxs label_weights (i + 1) rest
    return p :: ps

/-- The merged state a composite `S3DISSegDataset` exposes. -/
structure Composite where
  data_infos : List SceneRecord
  scene_idxs : List Nat
  label_weight : List ℚ
deriving DecidableEq, Repr

/-- `S3DISSegDataset.__init__`: normalize the three per-partition inputs,
initialize attributes as `datasets[0]` (the `super().__init__` call, whose
keyword arguments index position 0 of each normalized collection), build the
partitions, then concatenate scene records, sampling indices and label
weights.  The trailing `_set_group_flag` touches only an external sampler
flag and is omitted. -/
def s3disInit (env : Env) (test_mode : Bool) (ann_files : AnnInput)
    (scene_idxs : IdxInput) (label_weights : WInput) : Except Err Composite := do
  let af := check_ann_files ann_files
  let si ← check_scene_idxs scene_idxs af.length
  let lw ← check_label_weights label_weights af.length
  let a0 ← pyGet af 0
  let s0 ← pyGet si 0
  let w0 ← pyGet lw 0
  let _ ← mkPartition env test_mode a0 s0 w0
  let datasets ← build_loop env test_mode si lw 0 af
  let merged_idx ← concat_scene_idxs (datasets.map Partition.scene_idxs)
  return { data_infos := concat_data_infos (datasets.map Partition.data_infos),
           scene_idxs := merged_idx,
           label_weight := concat_label_weight (datasets.map Partition.label_weight) }

/-- A sample environment for concrete runs: every annotation file resolves to
one scene, every precomputed artifact to a one-element array. -/
def env0 : Env where
  load_infos := fun _ => [⟨"p", "m"⟩]
  resolve_idx := fun _ => [0]
  resolve_weight := fun _ => [1]
  default_weight := fun _ => [1]

/-! ### Helper lemmas about `npMax` -/

lemma init_le_foldl_max (xs : List Nat) : ∀ x : Nat, x ≤ xs.foldl max x := by
  induction xs with
  | nil => intro x; exact Nat.le_refl x
  | cons y ys ih => intro x; exact le_trans (Nat.le_max_left x y) (ih (max x y))

lemma mem_le_foldl_max (xs : List Nat) : ∀ x v : Nat, v ∈ xs → v ≤ xs.foldl max x := by
  induction xs with
  | nil => intro x v hv; cases hv
  | cons y ys ih =>
    intro x v hv
    rcases List.mem_cons.mp hv with h | h
    · subst h
      exact le_trans (Nat.le_max_right x v) (init_le_foldl_max ys (max x v))
    · exact ih (max x y) v h

lemma foldl_max_mem (xs : List Nat) : ∀ x : Nat, xs.foldl max x = x ∨ xs.foldl max x ∈ xs := by
  induction xs with
  | nil => intro x; exact Or.inl rfl
  | cons y ys ih =>
    intro x
    simp only [List.foldl_cons]
    rcases ih (max x y) with h | h
    · rw [h]
      rcases max_choice x y with h' | h'
      · exact Or.inl h'
      · exact Or.inr (by rw [h']; exact List.mem_cons_self y ys)
    · exact Or.inr (List.mem_cons_of_mem y h)

lemma npMax_mem {l : List Nat} {m : Nat} (h : npMax l = some m) : m ∈ l := by
  cases l with
  | nil => cases h
  | cons x xs =>
    have hm : xs.foldl max x = m := by simpa [npMax] using h
    subst hm
    rcases foldl_max_mem xs x with h' | h'
    · rw [h']; exact List.mem_cons_self x xs
    · exact List.mem_cons_of_mem x h'

lemma le_npMax {l : List Nat} {m v : Nat} (h : npMax l = some m) (hv : v ∈ l) : v ≤ m := by
  cases l with
  | nil => cases hv
  | cons x xs =>
    have hm : xs.foldl max x = m := by simpa [npMax] using h
    subst hm
    rcases List.mem_cons.mp hv with h' | h'
    · subst h'; exact init_le_foldl_max xs v
    · exact mem_le_foldl_max xs x v h'

lemma npMax_nonempty {l : List Nat} (h : l ≠ []) : ∃ m, npMax l = some m := by
  cases l with
  | nil => exact absurd rfl h
  | cons x xs => exact ⟨xs.foldl max x, rfl⟩

lemma npMax_eq {l : List Nat} {M : Nat} (hmem : M ∈ l) (hub : ∀ v ∈ l, v ≤ M) :
    npMax l = some M := by
  obtain ⟨m, hm⟩ := npMax_nonempty (List.ne_nil_of_mem hmem)
  rw [hm]
  exact congrArg some (Nat.le_antisymm (hub m (npMax_mem hm)) (le_npMax hm hmem))

lemma map_add_zero (l : List Nat) : l.map (· + 0) = l := by simp

/-! ### The loop of `concat_scene_idxs` as the specification's fold -/

lemma foldl_mergeStep_error (l : List (List Nat)) (e : Err) :
    l.foldl mergeStep (.error e) = .error e := by
  induction l with
  | nil => rfl
  | cons xs rest ih => simpa [mergeStep, Except.bind] using ih

lemma loop_eq_foldl (l : List (List Nat)) : ∀ (merged : List Nat) (offset : Nat),
    concat_scene_idxs_loop l merged offset =
      (l.foldl mergeStep (.ok (merged, offset))).map Prod.fst := by
  induction l with
  | nil => intro merged offset; rfl
  | cons xs rest ih =>
    intro merged offset
    simp only [concat_scene_idxs_loop, List.foldl_cons]
    cases hm : npMax (merged ++ xs.map (· + offset)) with
    | none => simp [mergeStep, Except.bind, Except.map, hm, foldl_mergeStep_error]
    | some m => simp [mergeStep, Except.bind, hm, ih]

/-! ### Range and maximum invariants of the merge loop -/

lemma loop_bound : ∀ (l : List (List Nat)) (cs : List Nat) (merged out : List Nat)
    (off B : Nat),
    List.Forall₂ (fun xs c => ∀ v ∈ xs, v < c) l cs →
    (∀ v ∈ merged, v < B) → off ≤ B →
    concat_scene_idxs_loop l merged off = .ok out →
    ∀ v ∈ out, v < B + cs.sum := by
  intro l
  induction l with
  | nil =>
    intro cs merged out off B hf hm hoff hok
    have hcs : cs = [] := List.forall₂_nil_left_iff.mp hf
    subst hcs
    have : merged = out := by simpa [concat_scene_idxs_loop] using hok
    subst this
    simpa using hm
  | cons xs rest ih =>
    intro cs merged out off B hf hm hoff hok
    obtain ⟨c, cs', hxc, hrest, rfl⟩ := List.forall₂_cons_left_iff.mp hf
    simp only [concat_scene_idxs_loop] at hok
    have hall : ∀ v ∈ merged ++ xs.map (· + off), v < B + c := by
      intro v hv
      rcases List.mem_append.mp hv with h | h
      · exact lt_of_lt_of_le (hm v h) (Nat.le_add_right B c)
      · obtain ⟨u, hu, rfl⟩ := List.mem_map.mp h
        have := hxc u hu
        omega
    cases hm' : npMax (merged ++ xs.map (· + off)) with
    | none => rw [hm'] at hok; cases hok
    | some m =>
      rw [hm'] at hok
      have hmB : m < B + c := hall m (npMax_mem hm')
      have hrec := ih cs' (merged ++ xs.map (· + off)) out (m + 1) (B + c)
        hrest hall (by omega) hok
      intro v hv
      have := hrec v hv
      simp only [List.sum_cons]
      omega

lemma loop_max : ∀ (l : List (List Nat)) (cs : List Nat),
    List.Forall₂ (fun xs c => (∀ v ∈ xs, v < c) ∧ npMax xs = some (c - 1)) l cs →
    ∀ (merged : List Nat) (m : Nat), npMax merged = some m →
    ∃ out, concat_scene_idxs_loop l merged (m + 1) = .ok out ∧
      npMax out = some (m + cs.sum) := by
  intro l
  induction l with
  | nil =>
    intro cs hf merged m hm
    have hcs : cs = [] := List.forall₂_nil_left_iff.mp hf
    subst hcs
    exact ⟨merged, rfl, by simpa using hm⟩
  | cons xs rest ih =>
    intro cs hf merged m hm
    obtain ⟨c, cs', hxc, hrest, rfl⟩ := List.forall₂_cons_left_iff.mp hf
    obtain ⟨hbound, hxmax⟩ := hxc
    have hcpos : 0 < c := by
      have := hbound _ (npMax_mem hxmax)
      omega
    have hmem : m + c ∈ merged ++ xs.map (· + (m + 1)) := by
      refine List.mem_append.mpr (Or.inr ?_)
      have := List.mem_map_of_mem (· + (m + 1)) (npMax_mem hxmax)
      simpa [show c - 1 + (m + 1) = m + c from by omega] using this
    have hub : ∀ v ∈ merged ++ xs.map (· + (m + 1)), v ≤ m + c := by
      intro v hv
      rcases List.mem_append.mp hv with h | h
      · exact le_trans (le_npMax hm h) (Nat.le_add_right m c)
      · obtain ⟨u, hu, rfl⟩ := List.mem_map.mp h
        have := hbound u hu
        omega
    have hM : npMax (merged ++ xs.map (· + (m + 1))) = some (m + c) := npMax_eq hmem hub
    obtain ⟨out, hloop, hmax⟩ := ih cs' hrest (merged ++ xs.map (· + (m + 1))) (m + c) hM
    refine ⟨out, ?_, ?_⟩
    · simp only [concat_scene_idxs_loop]
      rw [hM]
      exact hloop
    · rw [hmax]
      simp only [List.sum_cons]
      exact congrArg some (by omega)

/-! ### Contiguous sub-ranges of the flattened scene-record list -/

lemma flatten_getElem? {α : Type} :
    ∀ (infos : List (List α)) (k : Nat) (hk : k < infos.length) (j : Nat),
    j < (infos.get ⟨k, hk⟩).length →
    infos.flatten[start_of infos k + j]? = (infos.get ⟨k, hk⟩)[j]? := by
  intro infos
  induction infos with
  | nil => intro k hk; simp at hk
  | cons i rest ih =>
    intro k hk j hj
    cases k with
    | zero =>
      simp only [start_of, List.take_zero, List.map_nil, List.sum_nil, Nat.zero_add,
        List.flatten_cons]
      rw [List.getElem?_append]
      rw [if_pos (by simpa using hj)]
      rfl
    | succ k' =>
      have hk' : k' < rest.length := by simpa using hk
      have hstart : start_of (i :: rest) (k' + 1) = i.length + start_of rest k' := by
        simp [start_of, List.take_succ_cons]
      rw [hstart, Nat.add_assoc, List.flatten_cons,
        List.getElem?_append_right (Nat.le_add_right i.length (start_of rest k' + j)),
        Nat.add_sub_cancel_left]
      exact ih k' hk' j (by simpa using hj)

/-! ### Construction-level helper lemmas -/

lemma mkPartition_train_none (env : Env) (a : String) (w : Option WSrc) :
    mkPartition env false a none w = .error .notImplemented := by
  simp [mkPartition]

lemma mkPartition_test_none (env : Env) (a : String) (w : Option WSrc) :
    mkPartition env true a none w =
      .ok { data_infos := env.load_infos a,
            scene_idxs := List.range (env.load_infos a).length,
            label_weight :=
              match w with
              | none => env.default_weight a
              | some (.str s) => env.resolve_weight s
              | some (.arr v) => v } := by
  simp only [mkPartition]
  rw [if_neg (by simp), if_pos (by intro v hv; simpa using List.mem_range.mp hv)]

lemma check_label_weights_ne_nil {lwi : WInput} {n : Nat} {lws : List (Option WSrc)}
    (hn : 0 < n) (h : check_label_weights lwi n = .ok lws) : lws ≠ [] := by
  have hlen : 0 < lws.length := by
    cases lwi with
    | noneW =>
      simp only [check_label_weights, duplicate_to_list] at h
      cases h
      simpa using hn
    | strW s =>
      simp only [check_label_weights, duplicate_to_list] at h
      cases h
      simpa using hn
    | arrW w =>
      cases w with
      | nil => simp [check_label_weights] at h
      | cons x xs =>
        simp only [check_label_weights, duplicate_to_list] at h
        cases h
        simpa using hn
    | listW l =>
      cases l with
      | nil => simp [check_label_weights] at h
      | cons x xs =>
        simp only [check_label_weights] at h
        cases h
        simp
  exact List.ne_nil_of_length_pos hlen

lemma build_loop_short (env : Env) (N : Nat) (lw : List (Option WSrc)) :
    ∀ (afs : List String) (i : Nat),
    i + afs.length ≤ N → i ≤ lw.length → lw.length < i + afs.length →
    build_loop env true (List.replicate N none) lw i afs = .error .indexError := by
  intro afs
  induction afs with
  | nil =>
    intro i h1 h2 h3
    exfalso
    simp only [List.length_nil] at h3
    omega
  | cons af rest ih =>
    intro i h1 h2 h3
    simp only [List.length_cons] at h1 h3
    have hi : i < N := by omega
    have hs : pyGet (List.replicate N (none : Option IdxSrc)) i = .ok none := by
      simp [pyGet, List.getElem?_replicate, hi]
    rcases Nat.lt_or_ge i lw.length with hlt | hge
    · obtain ⟨w, hwget⟩ : ∃ w, lw[i]? = some w :=
        ⟨lw.get ⟨i, hlt⟩, List.getElem?_eq_getElem hlt⟩
      have hw : pyGet lw i = .ok w := by simp [pyGet, hwget]
      have hp := mkPartition_test_none env af w
      have hrec := ih (i + 1) (by omega) (by omega) (by omega)
      simp [build_loop, hs, hw, hp, hrec, bind, Except.bind, Functor.map, Except.map]
    · have hnone : lw[i]? = none := List.getElem?_eq_none hge
      have hw : pyGet lw i = .error .indexError := by simp [pyGet, hnone]
      simp [build_loop, hs, hw, bind, Except.bind]

/-! ### Claim theorems -/

/-- Claim C1: the merged sampling index is produced by the left-to-right fold
the specification describes — offset starts at 0, the offset is added to each
partition's values before appending, and after appending the offset becomes
one plus the maximum value present in the whole merged index (not offset plus
the partition's scene count).  Concretely, partitions with sampling indices
`[0,0,1,2]` and `[0,1,1]` (3 and 2 scenes) merge to `[0,0,1,2,3,4,4]` with
merged scene count 5; indices `[0,0]` and `[0,1]` merge to `[0,0,1,2]`,
witnessing the max-based (not scene-count-based) offset rule. -/
theorem claim_C1 :
    (∀ scene_idxs : List (List Nat),
      concat_scene_idxs scene_idxs = mergeIdxSpec scene_idxs)
    ∧ concat_scene_idxs [[0, 0, 1, 2], [0, 1, 1]] = .ok [0, 0, 1, 2, 3, 4, 4]
    ∧ (concat_data_infos [["A_1", "A_2", "A_3"], ["B_1", "B_2"]]).length = 5
    ∧ concat_scene_idxs [[0, 0], [0, 1]] = .ok [0, 0, 1, 2] :=
  ⟨fun scene_idxs => loop_eq_foldl scene_idxs [] 0, rfl, rfl, rfl⟩

/-- Claim C10: when the first partition's sampling index is empty, the merged
index is still empty when the next offset is recomputed, so
`np.unique(...).max()` raises and the composite cannot be constructed. -/
theorem claim_C10 :
    (∀ rest : List (List Nat), concat_scene_idxs ([] :: rest) = .error .valueError)
    ∧ s3disInit env0 true (.list ["a", "b"]) (.listI [.arr [], .arr [0]]) .noneW
        = .error .valueError :=
  ⟨fun _ => rfl, rfl⟩

/-- Claim C5: when every partition's sampling-index values are below that
partition's own scene count, every value of the merged sampling index is below
the merged scene count. -/
theorem claim_C5 {α : Type} (infos : List (List α)) (idxss : List (List Nat))
    (out : List Nat)
    (hval : List.Forall₂ (fun xs info => ∀ v ∈ xs, v < info.length) idxss infos)
    (hok : concat_scene_idxs idxss = .ok out) :
    ∀ v ∈ out, v < (concat_data_infos infos).length := by
  have hf : List.Forall₂ (fun xs c => ∀ v ∈ xs, v < c) idxss (infos.map List.length) :=
    List.forall₂_map_right_iff.mpr hval
  have h := loop_bound idxss (infos.map List.length) [] out 0 0 hf
    (by intro v hv; cases hv) (Nat.le_refl 0) hok
  intro v hv
  have h2 := h v hv
  have h3 : (concat_data_infos infos).length = (infos.map List.length).sum :=
    List.length_flatten infos
  omega

/-- Witness for C5 at a concrete composite: merging `[[0],[0,1]]` over
partitions of 1 and 2 scenes yields `[0,1,2]`, and the value 1 is below the
merged scene count. -/
theorem claim_C5_witness : (1 : Nat) < (concat_data_infos [["a"], ["b", "c"]]).length :=
  claim_C5 [["a"], ["b", "c"]] [[0], [0, 1]] [0, 1, 2]
    (List.Forall₂.cons (by decide) (List.Forall₂.cons (by decide) List.Forall₂.nil))
    rfl 1 (by decide)

/-- Claim C7: the merged scene-record list is the ordered concatenation of the
partitions' lists — its length is the sum of the scene counts, and inside
partition `k`'s contiguous range the merged record at `j` is partition `k`'s
record at `j` minus the start of that range. -/
theorem claim_C7 {α : Type} (infos : List (List α)) (k j : Nat) (hk : k < infos.length)
    (h1 : start_of infos k ≤ j)
    (h2 : j < start_of infos k + (infos.get ⟨k, hk⟩).length) :
    (concat_data_infos infos).length = (infos.map List.length).sum
    ∧ (concat_data_infos infos)[j]? = (infos.get ⟨k, hk⟩)[j - start_of infos k]? := by
  refine ⟨List.length_flatten infos, ?_⟩
  have hj : j - start_of infos k < (infos.get ⟨k, hk⟩).length := by omega
  have h := flatten_getElem? infos k hk (j - start_of infos k) hj
  rw [show start_of infos k + (j - start_of infos k) = j from by omega] at h
  exact h

/-- Witness for C7 at a concrete pair of partitions. -/
theorem claim_C7_witness :
    (concat_data_infos [["a"], ["b", "c"]]).length = 3
    ∧ (concat_data_infos [["a"], ["b", "c"]])[2]? = some "c" := by
  have h := claim_C7 [["a"], ["b", "c"]] 1 2 (by decide) (by decide) (by decide)
  exact ⟨h.1.trans rfl, h.2.trans rfl⟩

/-- Claim C6: for per-partition label-weight vectors of equal length the merged
vector is their element-wise arithmetic mean — entry `j` is the sum of the
entries at `j` divided by the number of vectors; `[1,2]` and `[3,0]` merge to
`[2,1]`. -/
theorem claim_C6 (ws : List (List ℚ)) (L : Nat) (hne : ws ≠ [])
    (hL : ∀ w ∈ ws, w.length = L) :
    (concat_label_weight ws).length = L
    ∧ (∀ j, j < L →
        (concat_label_weight ws)[j]? =
          some ((ws.map fun w => w.getD j 0).sum / (ws.length : ℚ)))
    ∧ concat_label_weight [[1, 2], [3, 0]] = [2, 1] := by
  obtain ⟨w, rest, rfl⟩ : ∃ w rest, ws = w :: rest := by
    cases ws with
    | nil => exact absurd rfl hne
    | cons w rest => exact ⟨w, rest, rfl⟩
  have hw : w.length = L := hL w (List.mem_cons_self w rest)
  refine ⟨?_, ?_, ?_⟩
  · simp [concat_label_weight, hw]
  · intro j hj
    simp only [concat_label_weight]
    rw [List.getElem?_map, List.getElem?_range (by omega : j < w.length)]
    rfl
  · norm_num [concat_label_weight, List.range_succ]

/-- Witness for C6 at the concrete instance from the specification. -/
theorem claim_C6_witness : (concat_label_weight [[(1 : ℚ), 2], [3, 0]]).length = 2 :=
  (claim_C6 [[1, 2], [3, 0]] 2 (by simp) (by simp)).1

/-- Claim C3 (amended): after the merge, the maximum of the merged sampling
index equals the merged scene-record count minus one provided additionally
each partition's sampling index attains its own last scene (its maximum is
that partition's scene count minus one); each partition's scenes occupy a
contiguous, non-overlapping sub-range of the merged list in partition order.
Local validity of the indices alone does not suffice (see the
counterexample). -/
theorem claim_C3 {α : Type} (infos : List (List α)) (idxss : List (List Nat))
    (hne : idxss ≠ [])
    (h : List.Forall₂ (fun xs info =>
        (∀ v ∈ xs, v < info.length) ∧ npMax xs = some (info.length - 1)) idxss infos) :
    ∃ out, concat_scene_idxs idxss = .ok out
      ∧ npMax out = some ((concat_data_infos infos).length - 1)
      ∧ ∀ k (hk : k < infos.length) (j : Nat),
          start_of infos k ≤ j → j < start_of infos k + (infos.get ⟨k, hk⟩).length →
          (concat_data_infos infos)[j]? = (infos.get ⟨k, hk⟩)[j - start_of infos k]? := by
  obtain ⟨x0, restI, rfl⟩ : ∃ x0 restI, idxss = x0 :: restI := by
    cases idxss with
    | nil => exact absurd rfl hne
    | cons x0 restI => exact ⟨x0, restI, rfl⟩
  obtain ⟨i0, restInfos, h0, hrest, rfl⟩ := List.forall₂_cons_left_iff.mp h
  obtain ⟨hb0, hm0⟩ := h0
  have hc0 : 0 < i0.length := by
    have := hb0 _ (npMax_mem hm0)
    omega
  have hrest' : List.Forall₂ (fun xs c => (∀ v ∈ xs, v < c) ∧ npMax xs = some (c - 1))
      restI (restInfos.map List.length) := List.forall₂_map_right_iff.mpr hrest
  obtain ⟨out, hloop, hmax⟩ :=
    loop_max restI (restInfos.map List.length) hrest' x0 (i0.length - 1) hm0
  have hlen : (concat_data_infos (i0 :: restInfos)).length
      = i0.length + (restInfos.map List.length).sum := by
    rw [show concat_data_infos (i0 :: restInfos) = (i0 :: restInfos).flatten from rfl,
      List.length_flatten, List.map_cons, List.sum_cons]
  refine ⟨out, ?_, ?_, ?_⟩
  · show concat_scene_idxs_loop (x0 :: restI) [] 0 = .ok out
    simp only [concat_scene_idxs_loop]
    rw [List.nil_append, map_add_zero, hm0]
    exact hloop
  · rw [hmax, hlen]
    exact congrArg some (by omega)
  · intro k hk j hj1 hj2
    have hj : j - start_of (i0 :: restInfos) k < ((i0 :: restInfos).get ⟨k, hk⟩).length := by
      omega
    have hg := flatten_getElem? (i0 :: restInfos) k hk (j - start_of (i0 :: restInfos) k) hj
    rw [show start_of (i0 :: restInfos) k + (j - start_of (i0 :: restInfos) k) = j
      from by omega] at hg
    exact hg

/-- Counterexample to C3 as stated: both partitions' indices are locally valid
(all values below the own scene count: `[0,0]` over 3 scenes, `[0,1]` over 2
scenes), yet the merged index `[0,0,1,2]` has maximum 2 while the merged
scene-record list has length 5. -/
theorem claim_C3_counterexample :
    concat_scene_idxs [[0, 0], [0, 1]] = .ok [0, 0, 1, 2]
    ∧ ([0, 0].all (· < 3) = true ∧ [0, 1].all (· < 2) = true)
    ∧ (concat_data_infos [["A_1", "A_2", "A_3"], ["B_1", "B_2"]]).length = 5
    ∧ npMax [0, 0, 1, 2] ≠ some (5 - 1) :=
  ⟨rfl, by decide, rfl, by decide⟩

/-- Witness for the amended C3 at a concrete composite whose indices attain
each partition's last scene. -/
theorem claim_C3_witness :
    ∃ out, concat_scene_idxs [[0], [0, 1]] = Except.ok out
      ∧ npMax out = some ((concat_data_infos [["a"], ["b", "c"]]).length - 1) := by
  obtain ⟨out, h1, h2, -⟩ := claim_C3 [["a"], ["b", "c"]] [[0], [0, 1]] (by simp)
    (List.Forall₂.cons (by decide) (List.Forall₂.cons (by decide) List.Forall₂.nil))
  exact ⟨out, h1, h2⟩

/-- Claim C2 (amended): an explicit per-partition collection *shorter* than
the number of annotation sources makes construction fail with an index-range
error (raised while indexing the collection during partition construction, so
no composite object is produced); a *longer* collection is not rejected — the
excess entries are silently ignored (see the counterexample). -/
theorem claim_C2 (env : Env) (af : AnnInput) (l : List WSrc)
    (hne : l ≠ []) (hlt : l.length < (check_ann_files af).length) :
    s3disInit env true af .noneI (.listW l) = .error .indexError := by
  obtain ⟨w0, l', rfl⟩ : ∃ w0 l', l = w0 :: l' := by
    cases l with
    | nil => exact absurd rfl hne
    | cons a b => exact ⟨a, b, rfl⟩
  obtain ⟨a0, A', hA⟩ : ∃ a0 A', check_ann_files af = a0 :: A' := by
    cases hAf : check_ann_files af with
    | nil => rw [hAf] at hlt; simp at hlt
    | cons a b => exact ⟨a, b, rfl⟩
  have hNpos : 0 < (check_ann_files af).length := by rw [hA]; simp
  have h1 : check_scene_idxs .noneI (check_ann_files af).length
      = .ok (List.replicate (check_ann_files af).length none) := rfl
  have h2 : check_label_weights (.listW (w0 :: l')) (check_ann_files af).length
      = .ok (some w0 :: l'.map some) := rfl
  have h3 : pyGet (check_ann_files af) 0 = .ok a0 := by rw [hA]; simp [pyGet]
  have h4 : pyGet (List.replicate (check_ann_files af).length (none : Option IdxSrc)) 0
      = .ok none := by
    simp [pyGet, List.getElem?_replicate, hNpos]
  have h5 : pyGet (some w0 :: l'.map some) 0 = .ok (some w0) := by simp [pyGet]
  have h6 := mkPartition_test_none env a0 (some w0)
  have h7 : build_loop env true (List.replicate (check_ann_files af).length none)
      (some w0 :: l'.map some) 0 (check_ann_files af) = .error .indexError := by
    apply build_loop_short
    · simp
    · simp
    · simpa using hlt
  simp [s3disInit, h1, h2, h3, h4, h5, h6, h7, bind, Except.bind]

/-- Counterexample to C2 as stated: three annotation sources with an explicit
four-entry weight collection (first element a vector) — a cardinality
mismatch — yet construction succeeds and returns a composite, ignoring the
fourth entry. -/
theorem claim_C2_counterexample :
    s3disInit env0 true (.list ["a", "b", "c"]) .noneI
        (.listW [.arr [1], .arr [1], .arr [1], .arr [1]])
      = .ok { data_infos := [⟨"p", "m"⟩, ⟨"p", "m"⟩, ⟨"p", "m"⟩],
              scene_idxs := [0, 1, 2], label_weight := [1] } := by
  norm_num [s3disInit, env0, check_ann_files, check_scene_idxs, check_label_weights,
    duplicate_to_list, pyGet, build_loop, mkPartition, concat_scene_idxs,
    concat_scene_idxs_loop, npMax, concat_data_infos, concat_label_weight,
    bind, Except.bind, pure, Except.pure, List.range_succ]

/-- Witness for the amended C2: three annotation sources and a two-entry
explicit weight collection fail with an index error. -/
theorem claim_C2_witness :
    s3disInit env0 true (.list ["a", "b", "c"]) .noneI (.listW [.arr [1], .arr [1]])
      = .error .indexError :=
  claim_C2 env0 (.list ["a", "b", "c"]) [.arr [1], .arr [1]] (by simp)
    (by simp [check_ann_files])

/-- Claim C4: a partition dataset constructed in training mode without a
sampling-index source fails fast with the explicit unsupported-configuration
error; the composite with an absent sampling-index input raises that same
error during the initialize-as-first-partition step, before the partition
list is built; in evaluation mode the same absent input is accepted. -/
theorem claim_C4 :
    (∀ (env : Env) (a : String) (w : Option WSrc),
      mkPartition env false a none w = .error .notImplemented)
    ∧ (∀ (env : Env) (a : String) (w : Option WSrc),
      ∃ p, mkPartition env true a none w = .ok p)
    ∧ ∀ (env : Env) (af : AnnInput) (lwi : WInput) (lws : List (Option WSrc)),
        check_ann_files af ≠ [] →
        check_label_weights lwi (check_ann_files af).length = .ok lws →
        s3disInit env false af .noneI lwi = .error .notImplemented := by
  refine ⟨mkPartition_train_none, fun env a w => ⟨_, mkPartition_test_none env a w⟩, ?_⟩
  intro env af lwi lws hne hlw
  obtain ⟨a0, A', hA⟩ : ∃ a0 A', check_ann_files af = a0 :: A' := by
    cases hAf : check_ann_files af with
    | nil => exact absurd hAf hne
    | cons a b => exact ⟨a, b, rfl⟩
  have hNpos : 0 < (check_ann_files af).length := by rw [hA]; simp
  have hlwne : lws ≠ [] := check_label_weights_ne_nil hNpos hlw
  obtain ⟨w0, lws', rfl⟩ : ∃ w0 lws', lws = w0 :: lws' := by
    cases lws with
    | nil => exact absurd rfl hlwne
    | cons a b => exact ⟨a, b, rfl⟩
  have h1 : check_scene_idxs .noneI (check_ann_files af).length
      = .ok (List.replicate (check_ann_files af).length none) := rfl
  have h3 : pyGet (check_ann_files af) 0 = .ok a0 := by rw [hA]; simp [pyGet]
  have h4 : pyGet (List.replicate (check_ann_files af).length (none : Option IdxSrc)) 0
      = .ok none := by
    simp [pyGet, List.getElem?_replicate, hNpos]
  have h5 : pyGet (w0 :: lws') 0 = .ok w0 := by simp [pyGet]
  have h6 := mkPartition_train_none env a0 w0
  simp [s3disInit, h1, hlw, h3, h4, h5, h6, bind, Except.bind]

/-- Witness for C4: one annotation source, training mode, no sampling-index
input — construction raises the unsupported-configuration error. -/
theorem claim_C4_witness :
    s3disInit env0 false (.single "a") .noneI .noneW = .error .notImplemented :=
  claim_C4.2.2 env0 (.single "a") .noneW (List.replicate 1 none)
    (by simp [check_ann_files, duplicate_to_list]) rfl

/-- Claim C8 (amended): normalization expands each input to exactly `N`
entries — `None` becomes `N` copies of `None`, a string reference is
replicated `N` times, and a single *non-empty* index array or weight vector
is replicated `N` times unchanged (in particular a single array with `N = 3`);
an empty single array instead raises an index error (see the
counterexample). -/
theorem claim_C8 (n : Nat) (s : String) (a : List Nat) (w : List ℚ)
    (ha : a ≠ []) (hw : w ≠ []) :
    check_scene_idxs .noneI n = .ok (List.replicate n none)
    ∧ check_scene_idxs (.strI s) n = .ok (List.replicate n (some (.str s)))
    ∧ check_scene_idxs (.arrI a) n = .ok (List.replicate n (some (.arr a)))
    ∧ check_label_weights .noneW n = .ok (List.replicate n none)
    ∧ check_label_weights (.strW s) n = .ok (List.replicate n (some (.str s)))
    ∧ check_label_weights (.arrW w) n = .ok (List.replicate n (some (.arr w)))
    ∧ check_scene_idxs (.arrI [5, 7]) 3 = .ok (List.replicate 3 (some (.arr [5, 7]))) := by
  obtain ⟨x, a', rfl⟩ : ∃ x a', a = x :: a' := by
    cases a with
    | nil => exact absurd rfl ha
    | cons x a' => exact ⟨x, a', rfl⟩
  obtain ⟨y, w', rfl⟩ : ∃ y w', w = y :: w' := by
    cases w with
    | nil => exact absurd rfl hw
    | cons y w' => exact ⟨y, w', rfl⟩
  exact ⟨rfl, rfl, rfl, rfl, rfl, rfl, rfl⟩

/-- Counterexample to C8 as stated: a single *empty* index array is a
non-collection reference, yet normalization raises an index error instead of
replicating it. -/
theorem claim_C8_counterexample :
    check_scene_idxs (.arrI ([] : List Nat)) 3 = .error .indexError
    ∧ (Except.error Err.indexError
        ≠ (.ok (List.replicate 3 (some (.arr ([] : List Nat))))
            : Except Err (List (Option IdxSrc)))) :=
  ⟨rfl, by simp⟩

/-- Witness for the amended C8 at concrete non-empty single arrays. -/
theorem claim_C8_witness :
    check_scene_idxs (.arrI [4]) 2 = .ok (List.replicate 2 (some (.arr [4])))
    ∧ check_label_weights (.arrW [1]) 2 = .ok (List.replicate 2 (some (.arr [1]))) := by
  have h := claim_C8 2 "x" [4] [1] (by simp) (by simp)
  exact ⟨h.2.2.1, h.2.2.2.2.2.1⟩

/-- Claim C9: the construction — normalization, partition building and the
three merge operations — is a deterministic function of its inputs: two runs
on equal configurations return equal merged scene records, sampling index and
label weights. -/
theorem claim_C9 (env₁ env₂ : Env) (t₁ t₂ : Bool) (a₁ a₂ : AnnInput)
    (s₁ s₂ : IdxInput) (w₁ w₂ : WInput)
    (henv : env₁ = env₂) (ht : t₁ = t₂) (ha : a₁ = a₂) (hs : s₁ = s₂) (hw : w₁ = w₂) :
    s3disInit env₁ t₁ a₁ s₁ w₁ = s3disInit env₂ t₂ a₂ s₂ w₂ := by
  subst henv ht ha hs hw
  rfl

/-- Witness for C9 at a concrete configuration. -/
theorem claim_C9_witness :
    s3disInit env0 true (.single "a") .noneI .noneW
      = s3disInit env0 true (.single "a") .noneI .noneW :=
  claim_C9 env0 env0 true true (.single "a") (.single "a") .noneI .noneI .noneW .noneW
    rfl rfl rfl rfl rfl

end S3DIS
